import Mathlib

/-
Verification of the RSEBL scraper core (src/scraper/scrape.py) via a shallow
embedding: Python strings become `List Char`, Python numbers (int/float)
become `ℚ`, JSON values become `JVal`, exceptions become `Except PyErr`.
-/

set_option maxRecDepth 4000

instance instDecEqExcept {ε α : Type} [DecidableEq ε] [DecidableEq α] :
    DecidableEq (Except ε α) := fun a b =>
  match a, b with
  | .ok x, .ok y =>
    if h : x = y then isTrue (by rw [h])
    else isFalse (by intro hh; exact h (Except.ok.inj hh))
  | .error x, .error y =>
    if h : x = y then isTrue (by rw [h])
    else isFalse (by intro hh; exact h (Except.error.inj hh))
  | .ok _, .error _ => isFalse (by intro hh; exact Except.noConfusion hh)
  | .error _, .ok _ => isFalse (by intro hh; exact Except.noConfusion hh)

namespace RSEBL

/-- Python whitespace characters recognised by `str.strip()` / `float()`. -/
def pySpace (c : Char) : Bool :=
  c = ' ' ∨ c = '\t' ∨ c = '\n' ∨ c = '\r' ∨ c = '\x0b' ∨ c = '\x0c'

/-- Model of Python `str.strip()` (no arguments): drop whitespace at both ends. -/
def trimPy (l : List Char) : List Char :=
  ((l.dropWhile pySpace).reverse.dropWhile pySpace).reverse

/-- Fuel-driven worker for `pyReplace` (fuel bounds the number of steps so the
recursion is structural and kernel-reducible; `fuel = s.length` always
suffices). -/
def pyReplaceF : Nat → List Char → List Char → List Char → List Char
  | 0, s, _, _ => s
  | fuel + 1, s, pat, rep =>
    match s with
    | [] => []
    | c :: rest =>
      if pat ≠ [] ∧ pat.isPrefixOf (c :: rest) then
        rep ++ pyReplaceF fuel ((c :: rest).drop pat.length) pat rep
      else
        c :: pyReplaceF fuel rest pat rep

/-- Model of Python `str.replace(pat, rep)` for a nonempty pattern:
leftmost, non-overlapping, all occurrences. -/
def pyReplace (s pat rep : List Char) : List Char :=
  pyReplaceF s.length s pat rep

/-- Numeric value of a digit list (most significant first). -/
def digitsVal (ds : List Char) : Nat :=
  ds.foldl (fun a c => a * 10 + (c.toNat - 48)) 0

/-- Core of Python `float(s)` after stripping and sign handling:
`digits [. digits] [(e|E) [+|-] digits]`, where at least one digit must be
present before or after the dot.  (Special values `inf`/`nan` and digit
underscores are outside the fragment this program relies on and are treated
as non-numeric.) -/
def pyFloatCore (l : List Char) : Option ℚ :=
  let ip := l.takeWhile Char.isDigit
  let r1 := l.dropWhile Char.isDigit
  let hasDot : Bool := match r1 with | '.' :: _ => true | _ => false
  let afterDot := if hasDot then r1.drop 1 else r1
  let fp := if hasDot then afterDot.takeWhile Char.isDigit else []
  let r2 := if hasDot then afterDot.dropWhile Char.isDigit else r1
  if ip = [] ∧ fp = [] then none
  else
    let num : Nat := digitsVal ip * 10 ^ fp.length + digitsVal fp
    let den : Nat := 10 ^ fp.length
    match r2 with
    | [] => some (mkRat num den)
    | e :: rest =>
      if e = 'e' ∨ e = 'E' then
        let negExp : Bool := match rest with | '-' :: _ => true | _ => false
        let rest2 := match rest with | '+' :: t => t | '-' :: t => t | t => t
        let ed := rest2.takeWhile Char.isDigit
        let r3 := rest2.dropWhile Char.isDigit
        if ed = [] ∨ r3 ≠ [] then none
        else if negExp then some (mkRat num (den * 10 ^ digitsVal ed))
        else some (mkRat (num * 10 ^ digitsVal ed) den)
      else none

/-- Model of Python `float(s)` on strings (decimal fragment). -/
def pyFloatOfStr (l : List Char) : Option ℚ :=
  match trimPy l with
  | '+' :: r => pyFloatCore r
  | '-' :: r => (pyFloatCore r).map (fun q => -q)
  | r => pyFloatCore r

/-- Result of `parse_number`: Python `None`, a float, or a string. -/
inductive PNResult where
  | pnone
  | pnum (q : ℚ)
  | pstr (s : List Char)
deriving DecidableEq, Repr

/-- The `"Nu."` currency marker. -/
def nuTok : List Char := ['N', 'u', '.']

/-- The cleaned text computed inside `parse_number`:
`text.replace(",", "").replace("Nu.", "").replace("%", "").strip()`. -/
def cleanOf (text : List Char) : List Char :=
  trimPy (pyReplace (pyReplace (pyReplace text [','] []) nuTok []) ['%'] [])

/-- `parse_number` from src/scraper/scrape.py lines 29-36. -/
def parse_number (text : List Char) : PNResult :=
  if text = [] then .pnone
  else
    match pyFloatOfStr (cleanOf text) with
    | some q => .pnum q
    | none => .pstr (trimPy text)

/-! ### Python/JSON value model -/

/-- Python values decoded from JSON (`json.loads` results and values produced
by in-page evaluation).  Python `int` and `float` are kept apart because
`str()` renders them differently; both are modelled exactly as rationals. -/
inductive JVal where
  | jnull
  | jbool (b : Bool)
  | jint (n : Int)
  | jfloat (q : ℚ)
  | jstr (s : List Char)
  | jarr (elems : List JVal)
  | jobj (fields : List (List Char × JVal))

/-- Python exceptions that the scraper code can raise or catch. -/
inductive PyErr where
  | attributeError
  | valueError
  | typeError
deriving DecidableEq, Repr

/-- Python truthiness (`bool(v)`) for the modelled values. -/
def truthy : JVal → Bool
  | .jnull => false
  | .jbool b => b
  | .jint n => n ≠ 0
  | .jfloat q => q ≠ 0
  | .jstr s => !s.isEmpty
  | .jarr l => !l.isEmpty
  | .jobj l => !l.isEmpty

/-- First-match association lookup (Python `dict` access on unique-key maps). -/
def getKey {β : Type} : List (List Char × β) → List Char → Option β
  | [], _ => none
  | (k, v) :: rest, key => if k = key then some v else getKey rest key

/-- Python `dict` assignment `m[key] = v`: replace the value in place if the
key exists, else append at the end (insertion order preserved). -/
def setKey {β : Type} : List (List Char × β) → List Char → β → List (List Char × β)
  | [], key, v => [(key, v)]
  | (k, w) :: rest, key, v =>
    if k = key then (key, v) :: rest else (k, w) :: setKey rest key v

/-- Python `e.get(k)`: `None` when the key is missing, `AttributeError` when
`e` is not a dict. -/
def pyGet (e : JVal) (k : List Char) : Except PyErr JVal :=
  match e with
  | .jobj fs => .ok ((getKey fs k).getD .jnull)
  | _ => .error .attributeError

/-- Digits of a natural number, via the core decimal printer. -/
def natRepr (n : Nat) : List Char := (Nat.repr n).toList

/-- Python `str()` of an int. -/
def intRepr (n : Int) : List Char := (Int.repr n).toList

/-- Smallest `k ≤ fuel` such that `q * 10 ^ k` is an integer. -/
def decExp : Nat → ℚ → Option Nat
  | 0, q => if q.den = 1 then some 0 else none
  | f + 1, q => if q.den = 1 then some 0 else (decExp f (q * 10)).map (fun k => k + 1)

/-- Python `str()` of a float, for floats whose value is an exact decimal
(the only floats this program produces from JSON text); other rationals get
a fraction rendering that no Python float takes. -/
def floatRepr (q : ℚ) : List Char :=
  let sign : List Char := if q < 0 then ['-'] else []
  let a : ℚ := if q < 0 then -q else q
  match decExp a.den a with
  | some k =>
    let scaled : Nat := (a * (10 : ℚ) ^ k).num.toNat
    let ipart := scaled / 10 ^ k
    let fpart := scaled % 10 ^ k
    let fdigits := natRepr fpart
    if k = 0 then sign ++ natRepr ipart ++ ['.', '0']
    else sign ++ natRepr ipart ++ '.' :: (List.replicate (k - fdigits.length) '0' ++ fdigits)
  | none => sign ++ intRepr a.num ++ '/' :: natRepr a.den

mutual

/-- Python `repr()` of a value (string quoting approximated without escape
handling, which the modelled data never needs). -/
def pyRepr : JVal → List Char
  | .jnull => "None".toList
  | .jbool b => if b then "True".toList else "False".toList
  | .jint n => intRepr n
  | .jfloat q => floatRepr q
  | .jstr s => '\'' :: s ++ ['\'']
  | .jarr l => '[' :: List.intercalate [',', ' '] (pyReprList l) ++ [']']
  | .jobj l => '\x7b' :: List.intercalate [',', ' '] (pyReprFields l) ++ ['\x7d']

/-- `repr` of the elements of a list value. -/
def pyReprList : List JVal → List (List Char)
  | [] => []
  | v :: vs => pyRepr v :: pyReprList vs

/-- `repr` of the fields of a dict value. -/
def pyReprFields : List (List Char × JVal) → List (List Char)
  | [] => []
  | (k, v) :: fs => ('\'' :: k ++ '\'' :: ':' :: ' ' :: pyRepr v) :: pyReprFields fs

end

/-- Python `str()` of a value. -/
def pyStr : JVal → List Char
  | .jstr s => s
  | v => pyRepr v

/-- Python `float(v)` on a value: numbers pass through, booleans coerce,
strings go through the float grammar (`ValueError` on failure), anything
else is a `TypeError`. -/
def pyFloatVal : JVal → Except PyErr ℚ
  | .jint n => .ok (mkRat n 1)
  | .jfloat q => .ok q
  | .jbool b => .ok (if b then 1 else 0)
  | .jstr s =>
    match pyFloatOfStr s with
    | some q => .ok q
    | none => .error .valueError
  | _ => .error .typeError

/-! ### deduplicate_daily (src/scraper/scrape.py lines 39-50) -/

/-- The `"date"` field name. -/
def dateKey : List Char := "date".toList

/-- The `"close"` field name. -/
def closeKey : List Char := "close".toList

/-- Code-point comparison `a ≤ b` on strings (Python `str` ordering). -/
def charLe : List Char → List Char → Bool
  | [], _ => true
  | _ :: _, [] => false
  | a :: as, b :: bs =>
    if a.toNat < b.toNat then true
    else if b.toNat < a.toNat then false
    else charLe as bs

/-- Ordered insertion for `sortPairs`. -/
def insertSorted {β : Type} (p : List Char × β) :
    List (List Char × β) → List (List Char × β)
  | [] => [p]
  | q :: rest => if charLe p.1 q.1 then p :: q :: rest else q :: insertSorted p rest

/-- Python `sorted(d.items())` for a unique-key map: sort pairs by key. -/
def sortPairs {β : Type} (l : List (List Char × β)) : List (List Char × β) :=
  l.foldr (fun p acc => insertSorted p acc) []

/-- Body of the `for e in entries` loop of `deduplicate_daily` for one entry. -/
def dedupStep (daily : List (List Char × ℚ)) (e : JVal) :
    Except PyErr (List (List Char × ℚ)) :=
  match pyGet e dateKey with
  | .error er => .error er
  | .ok d =>
    if truthy d = false then .ok daily
    else
      match pyGet e closeKey with
      | .error er => .error er
      | .ok c =>
        if truthy c = false then .ok daily
        else
          match pyFloatVal c with
          | .ok v => .ok (setKey daily ((pyStr d).take 10) v)
          | .error _ => .ok daily

/-- The `for` loop of `deduplicate_daily` over all entries. -/
def dedupLoop : List JVal → List (List Char × ℚ) → Except PyErr (List (List Char × ℚ))
  | [], daily => .ok daily
  | e :: rest, daily =>
    match dedupStep daily e with
    | .error er => .error er
    | .ok daily2 => dedupLoop rest daily2

/-- `deduplicate_daily` from src/scraper/scrape.py lines 39-50. -/
def deduplicate_daily (entries : List JVal) : Except PyErr (List (List Char × ℚ)) :=
  match dedupLoop entries [] with
  | .error er => .error er
  | .ok daily => .ok (sortPairs daily)

/-! ### Claim-side (specification) renderings of the normalizer -/

/-- Float coercion as an option (claim-side convenience). -/
def closeCoerce (v : JVal) : Option ℚ :=
  match pyFloatVal v with
  | .ok q => some q
  | .error _ => none

/-- Contribution of one record according to claim C2 as stated: a record with
a date field and a float-coercible close field contributes
`(str(date)[:10], float(close))`; only non-coercible closes are dropped. -/
def claimContrib (e : JVal) : Option (List Char × ℚ) :=
  match e with
  | .jobj fs =>
    match getKey fs dateKey, getKey fs closeKey with
    | some d, some c => (closeCoerce c).map (fun q => ((pyStr d).take 10, q))
    | _, _ => none
  | _ => none

/-- The normalizer claim C2 describes, built from its words: last record with
a key wins, output sorted ascending by key. -/
def dedupSpecClaim (entries : List JVal) : List (List Char × ℚ) :=
  sortPairs ((entries.filterMap claimContrib).foldl (fun m p => setKey m p.1 p.2) [])

/-- Contribution of one record under the amended claim: the date and close
fields must additionally be truthy (Python falsiness check in the code). -/
def amendedContrib (e : JVal) : Option (List Char × ℚ) :=
  match e with
  | .jobj fs =>
    let d := (getKey fs dateKey).getD .jnull
    let c := (getKey fs closeKey).getD .jnull
    if truthy d ∧ truthy c then (closeCoerce c).map (fun q => ((pyStr d).take 10, q))
    else none
  | _ => none

/-- Value of the last contributing record for a key (claim-side reading of
last-writer-wins). -/
def lastWins : List (List Char × ℚ) → List Char → Option ℚ
  | [], _ => none
  | p :: ps, k =>
    match lastWins ps k with
    | some v => some v
    | none => if p.1 = k then some p.2 else none

/-! ### Balanced-span scanner (src/scraper/scrape.py lines 249-271) -/

/-- The bracket-matching loop of `parse_rsc_history`: walks the characters
after the candidate start, tracking bracket depth, an in-string flag toggled
by unescaped quotes, and an escape flag set by a backslash inside a string.
Returns the offset one past the bracket that returns the depth to zero, or
`none` when the characters run out first (`arr_end` stays at `arr_idx`). -/
def scanLoop : List Char → Int → Bool → Bool → Nat → Option Nat
  | [], _, _, _, _ => none
  | c :: rest, depth, inStr, esc, pos =>
    if esc then scanLoop rest depth inStr false (pos + 1)
    else if c = '\\' ∧ inStr = true then scanLoop rest depth inStr true (pos + 1)
    else
      let inStr2 := if c = '"' then !inStr else inStr
      if inStr2 = false then
        if c = '[' then scanLoop rest (depth + 1) inStr2 false (pos + 1)
        else if c = ']' then
          if depth - 1 = 0 then some (pos + 1)
          else scanLoop rest (depth - 1) inStr2 false (pos + 1)
        else scanLoop rest depth inStr2 false (pos + 1)
      else scanLoop rest depth inStr2 false (pos + 1)

/-- The scanner as used on a window and candidate start offset: scan
`window[arr_idx:]` with `enumerate(_, arr_idx)` start state. -/
def scanSpan (window : List Char) (arrIdx : Nat) : Option Nat :=
  scanLoop (window.drop arrIdx) 0 false false arrIdx

/-- Well-formed body of a quoted string literal as the scanner sees it:
a sequence of escape pairs (backslash plus any character) and plain
characters that are neither a quote nor a backslash.  Brackets may appear
freely, both escaped and plain. -/
inductive StrBody : List Char → Prop
  | nil : StrBody []
  | esc (c : Char) (rest : List Char) : StrBody rest → StrBody ('\\' :: c :: rest)
  | plain (c : Char) (rest : List Char) :
      c ≠ '"' → c ≠ '\\' → StrBody rest → StrBody (c :: rest)

/-- Balanced bracket content: a sequence of plain characters (anything but a
bracket or quote), complete string literals, and complete nested bracketed
arrays.  `'[' :: inner ++ [']']` with `BalContent inner` is exactly a
balanced array span. -/
inductive BalContent : List Char → Prop
  | nil : BalContent []
  | plain (c : Char) (rest : List Char) :
      c ≠ '[' → c ≠ ']' → c ≠ '"' → BalContent rest → BalContent (c :: rest)
  | strLit (body rest : List Char) :
      StrBody body → BalContent rest → BalContent ('"' :: body ++ '"' :: rest)
  | arr (inner rest : List Char) :
      BalContent inner → BalContent rest → BalContent ('[' :: inner ++ ']' :: rest)

/-! ### Payload reassembler (src/scraper/scrape.py lines 218-224)

`chunk.encode("utf-8").decode("unicode_escape")` modelled at character level
for the ASCII payloads the site serves (escape handling is exact; the
latin-1 re-interpretation of multi-byte UTF-8, which only affects non-ASCII
source characters, is outside the fragment exercised here). -/

/-- Octal digit test. -/
def isOct (c : Char) : Bool := '0' ≤ c ∧ c ≤ '7'

/-- Hex digit test. -/
def isHexC (c : Char) : Bool :=
  c.isDigit ∨ ('a' ≤ c ∧ c ≤ 'f') ∨ ('A' ≤ c ∧ c ≤ 'F')

/-- Value of one hex digit. -/
def hexDigitVal (c : Char) : Nat :=
  if c.isDigit then c.toNat - 48
  else if 'a' ≤ c then c.toNat - 87
  else c.toNat - 55

/-- Value of a hex digit string. -/
def hexVal (ds : List Char) : Nat := ds.foldl (fun a c => a * 16 + hexDigitVal c) 0

/-- Value of an octal digit string. -/
def octVal (ds : List Char) : Nat := ds.foldl (fun a c => a * 8 + (c.toNat - 48)) 0

/-- One `unicode_escape` escape sequence: given the character after the
backslash and the following characters, the produced characters and how many
further characters are consumed, or `none` for a malformed escape
(`UnicodeDecodeError`).  Unknown escapes keep the backslash; a backslash
before a newline is a line continuation; `\\N` name escapes are treated as
failures (no name database). -/
def escSeq (c : Char) (rest : List Char) : Option (List Char × Nat) :=
  if c = '\n' then some ([], 0)
  else if c = '\\' then some (['\\'], 0)
  else if c = '\'' then some (['\''], 0)
  else if c = '"' then some (['"'], 0)
  else if c = 'a' then some (['\x07'], 0)
  else if c = 'b' then some (['\x08'], 0)
  else if c = 'f' then some (['\x0c'], 0)
  else if c = 'n' then some (['\n'], 0)
  else if c = 'r' then some (['\r'], 0)
  else if c = 't' then some (['\t'], 0)
  else if c = 'v' then some (['\x0b'], 0)
  else if isOct c then
    let ds := (rest.take 2).takeWhile isOct
    some ([Char.ofNat (octVal (c :: ds))], ds.length)
  else if c = 'x' then
    match rest with
    | h1 :: h2 :: _ =>
      if isHexC h1 ∧ isHexC h2 then some ([Char.ofNat (hexVal [h1, h2])], 2) else none
    | _ => none
  else if c = 'u' then
    match rest with
    | h1 :: h2 :: h3 :: h4 :: _ =>
      if isHexC h1 ∧ isHexC h2 ∧ isHexC h3 ∧ isHexC h4 then
        some ([Char.ofNat (hexVal [h1, h2, h3, h4])], 4)
      else none
    | _ => none
  else if c = 'U' then
    match rest with
    | h1 :: h2 :: h3 :: h4 :: h5 :: h6 :: h7 :: h8 :: _ =>
      if isHexC h1 ∧ isHexC h2 ∧ isHexC h3 ∧ isHexC h4 ∧ isHexC h5 ∧ isHexC h6 ∧
          isHexC h7 ∧ isHexC h8 then
        let v := hexVal [h1, h2, h3, h4, h5, h6, h7, h8]
        if v ≤ 0x10FFFF then some ([Char.ofNat v], 8) else none
      else none
    | _ => none
  else if c = 'N' then none
  else some (['\\', c], 0)

/-- Fuel-driven `unicode_escape` decode; `fuel = l.length` always suffices
since every step consumes at least one character. -/
def unescapeF : Nat → List Char → Option (List Char)
  | 0, l => match l with | [] => some [] | _ => none
  | fuel + 1, l =>
    match l with
    | [] => some []
    | c :: rest =>
      if c = '\\' then
        match rest with
        | [] => none
        | e :: rest2 =>
          match escSeq e rest2 with
          | none => none
          | some (prod, n) => (unescapeF fuel (rest2.drop n)).map (fun t => prod ++ t)
      else (unescapeF fuel rest).map (fun t => c :: t)

/-- Model of `chunk.encode("utf-8").decode("unicode_escape")`. -/
def unescape (l : List Char) : Option (List Char) := unescapeF l.length l

/-- The reassembly loop: per-chunk decode appended in input order, with the
raw chunk text kept when its decode fails. -/
def reassemble (chunks : List (List Char)) : List Char :=
  chunks.foldl (fun acc c => acc ++ ((unescape c).getD c)) []

/-! ### Model of `json.loads` (used at src/scraper/scrape.py line 274)

Standard JSON grammar; every recursive call decrements fuel and consumes at
least one character, so `fuel = input length + 1` always suffices.  The
non-standard `NaN`/`Infinity` extensions and astral surrogate-pair joining
are outside the data this program decodes and are treated as parse
failures / single code units. -/

/-- JSON whitespace. -/
def jWs (c : Char) : Bool := c = ' ' ∨ c = '\t' ∨ c = '\n' ∨ c = '\r'

/-- Skip JSON whitespace. -/
def skipWs (l : List Char) : List Char := l.dropWhile jWs

/-- Four hex digits of a `\\uXXXX` escape. -/
def jsonHex4 : List Char → Option (Nat × List Char)
  | h1 :: h2 :: h3 :: h4 :: rest =>
    if isHexC h1 ∧ isHexC h2 ∧ isHexC h3 ∧ isHexC h4 then
      some (hexVal [h1, h2, h3, h4], rest)
    else none
  | _ => none

/-- JSON string body after the opening quote: content and remainder. -/
def jsonStrF : Nat → List Char → Option (List Char × List Char)
  | 0, _ => none
  | fuel + 1, l =>
    match l with
    | [] => none
    | '"' :: rest => some ([], rest)
    | '\\' :: e :: rest =>
      (if e = '"' then some ('"', rest)
       else if e = '\\' then some ('\\', rest)
       else if e = '/' then some ('/', rest)
       else if e = 'b' then some ('\x08', rest)
       else if e = 'f' then some ('\x0c', rest)
       else if e = 'n' then some ('\n', rest)
       else if e = 'r' then some ('\r', rest)
       else if e = 't' then some ('\t', rest)
       else if e = 'u' then (jsonHex4 rest).map (fun p => (Char.ofNat p.1, p.2))
       else none).bind (fun p => (jsonStrF fuel p.2).map (fun q => (p.1 :: q.1, q.2)))
    | c :: rest =>
      if c.toNat < 0x20 then none
      else (jsonStrF fuel rest).map (fun q => (c :: q.1, q.2))

/-- JSON string body with adequate fuel. -/
def jsonStr (l : List Char) : Option (List Char × List Char) := jsonStrF (l.length + 1) l

/-- Build the numeric value of a JSON number from its parts. -/
def jsonNumVal (neg : Bool) (ip fp : List Char) (expNeg : Bool) (ed : List Char)
    (isFloat : Bool) : JVal :=
  if isFloat then
    let n : Nat := digitsVal ip * 10 ^ fp.length + digitsVal fp
    let base : ℚ :=
      if expNeg then mkRat n (10 ^ fp.length * 10 ^ digitsVal ed)
      else mkRat (n * 10 ^ digitsVal ed) (10 ^ fp.length)
    .jfloat (if neg then -base else base)
  else
    .jint (if neg then -(digitsVal ip : Int) else (digitsVal ip : Int))

/-- JSON number: `-? int frac? exp?`, leading zeros rejected; an integer
literal yields a Python `int`, a fraction or exponent yields a `float`. -/
def jsonNumber (l : List Char) : Option (JVal × List Char) :=
  let neg : Bool := match l with | '-' :: _ => true | _ => false
  let l1 := match l with | '-' :: t => t | t => t
  let ip := l1.takeWhile Char.isDigit
  let r1 := l1.dropWhile Char.isDigit
  if ip.isEmpty then none
  else if 1 < ip.length ∧ ip.headD '1' = '0' then none
  else
    let hasDot : Bool := match r1 with | '.' :: _ => true | _ => false
    let fp := if hasDot then (r1.drop 1).takeWhile Char.isDigit else []
    let r2 := if hasDot then (r1.drop 1).dropWhile Char.isDigit else r1
    if hasDot ∧ fp.isEmpty then none
    else
      let hasExp : Bool := match r2 with | 'e' :: _ => true | 'E' :: _ => true | _ => false
      if hasExp = false then some (jsonNumVal neg ip fp false [] hasDot, r2)
      else
        let r3 := r2.drop 1
        let expNeg : Bool := match r3 with | '-' :: _ => true | _ => false
        let r4 := match r3 with | '+' :: t => t | '-' :: t => t | t => t
        let ed := r4.takeWhile Char.isDigit
        let r5 := r4.dropWhile Char.isDigit
        if ed.isEmpty then none
        else some (jsonNumVal neg ip fp expNeg ed true, r5)

mutual

/-- JSON value parser (fuel-driven recursive descent). -/
def jsonValF : Nat → List Char → Option (JVal × List Char)
  | 0, _ => none
  | fuel + 1, l =>
    let l2 := skipWs l
    if "true".toList.isPrefixOf l2 then some (.jbool true, l2.drop 4)
    else if "false".toList.isPrefixOf l2 then some (.jbool false, l2.drop 5)
    else if "null".toList.isPrefixOf l2 then some (.jnull, l2.drop 4)
    else
      match l2 with
      | '\x7b' :: rest =>
        (match skipWs rest with
         | '\x7d' :: r2 => some (.jobj [], r2)
         | _ => jsonFieldsF fuel rest [])
      | '[' :: rest =>
        (match skipWs rest with
         | ']' :: r2 => some (.jarr [], r2)
         | _ => jsonElemsF fuel rest [])
      | '"' :: rest => (jsonStr rest).map (fun p => (.jstr p.1, p.2))
      | _ => jsonNumber l2

/-- Array elements after `[` (accumulating). -/
def jsonElemsF : Nat → List Char → List JVal → Option (JVal × List Char)
  | 0, _, _ => none
  | fuel + 1, l, acc =>
    match jsonValF fuel l with
    | none => none
    | some (v, r) =>
      match skipWs r with
      | ',' :: r2 => jsonElemsF fuel r2 (acc ++ [v])
      | ']' :: r2 => some (.jarr (acc ++ [v]), r2)
      | _ => none

/-- Object members after `{` (accumulating; a repeated key overwrites in
place, as in Python dicts). -/
def jsonFieldsF : Nat → List Char → List (List Char × JVal) → Option (JVal × List Char)
  | 0, _, _ => none
  | fuel + 1, l, acc =>
    match skipWs l with
    | '"' :: r =>
      (match jsonStr r with
       | none => none
       | some (k, r2) =>
         match skipWs r2 with
         | ':' :: r3 =>
           (match jsonValF fuel r3 with
            | none => none
            | some (v, r4) =>
              match skipWs r4 with
              | ',' :: r5 => jsonFieldsF fuel r5 (setKey acc k v)
              | '\x7d' :: r5 => some (.jobj (setKey acc k v), r5)
              | _ => none)
         | _ => none)
    | _ => none

end

/-- Model of `json.loads`: parse one value and require only whitespace after
it. -/
def jsonParse (l : List Char) : Option JVal :=
  match jsonValF (l.length + 1) l with
  | none => none
  | some (v, r) => if (skipWs r).isEmpty then some v else none

/-! ### Record decoder and validator (src/scraper/scrape.py lines 273-286) -/

/-- Key membership (`k in d` on a Python dict). -/
def hasKey {β : Type} : List (List Char × β) → List Char → Bool
  | [], _ => false
  | (k, _) :: rest, key => if k = key then true else hasKey rest key

/-- The acceptance test of the decoder:
`isinstance(arr, list) and len(arr) > 20 and isinstance(arr[0], dict) and
"date" in arr[0] and "close" in arr[0]`. -/
def acceptArr : JVal → Bool
  | .jarr elems =>
    decide (20 < elems.length) &&
      (match elems with
       | .jobj fs :: _ => hasKey fs dateKey && hasKey fs closeKey
       | _ => false)
  | _ => false

/-- The record decoder on a candidate span: `json.loads` plus the acceptance
test; `none` models both a `JSONDecodeError` (caught: try next candidate)
and a failed acceptance test (fall through: try next candidate). -/
def decodeSpan (span : List Char) : Option (List JVal) :=
  match jsonParse span with
  | some (.jarr elems) => if acceptArr (.jarr elems) then some elems else none
  | _ => none

/-- Whether a value lacks the given field (non-objects lack every field). -/
def lacksField (e : JVal) (k : List Char) : Bool :=
  match e with
  | .jobj fs => !(hasKey fs k)
  | _ => true

/-- The rejection condition exactly as claim C3 states it: parse failure,
not an array, fewer than 20 elements, or a first element lacking both a
date field and a close field. -/
def rejectsClaimB (span : List Char) : Bool :=
  match jsonParse span with
  | none => true
  | some (.jarr elems) =>
    decide (elems.length < 20) ||
      (match elems with
       | e :: _ => lacksField e dateKey && lacksField e closeKey
       | [] => true)
  | some _ => true

/-- The rejection condition as the code implements it, written from the
amended claim: parse failure, not an array, 20 or fewer elements, a
non-object first element, or a first element missing the date field or
missing the close field. -/
def rejectsAmendedB (span : List Char) : Bool :=
  match jsonParse span with
  | none => true
  | some (.jarr elems) =>
    decide (elems.length ≤ 20) ||
      (match elems with
       | .jobj fs :: _ => !(hasKey fs dateKey) || !(hasKey fs closeKey)
       | _ => true)
  | some _ => true

/-! ### Anchor-windowed locator (src/scraper/scrape.py lines 228-286) -/

/-- Window margin before an anchor occurrence. -/
def W_BEFORE : Nat := 5000

/-- Window margin after an anchor occurrence. -/
def W_AFTER : Nat := 30000

/-- The search window around one occurrence `(start, stop)`:
`full_rsc[max(0, start - 5000) : min(len(full_rsc), stop + 30000)]`
(truncated `Nat` subtraction is exactly the `max(0, ·)` clamp). -/
def windowOf (buf : List Char) (m : Nat × Nat) : List Char :=
  let s := m.1 - W_BEFORE
  let e := min buf.length (m.2 + W_AFTER)
  (buf.drop s).take (e - s)

/-- First index of `pat` in `l` at or after index `i` (`str.find`). -/
def findSubFrom (pat : List Char) : List Char → Nat → Option Nat
  | l, i =>
    if pat.isPrefixOf l then some i
    else
      match l with
      | [] => none
      | _ :: rest => findSubFrom pat rest (i + 1)

/-- `window.find(pat)`: first index of `pat`, `none` for Python's `-1`. -/
def findSub (l pat : List Char) : Option Nat := findSubFrom pat l 0

/-- The array marker `[{"date":`. -/
def dateMarker1 : List Char := "[\x7b\"date\":".toList

/-- The tolerated variant `[{"date" :` with one space before the colon. -/
def dateMarker2 : List Char := "[\x7b\"date\" :".toList

/-- The candidate start search in a window: the first marker, else the
space-tolerant variant, else no candidate. -/
def findArrIdx (window : List Char) : Option Nat :=
  match findSub window dateMarker1 with
  | some i => some i
  | none => findSub window dateMarker2

/-- Candidate span inside a window: find the candidate start, scan to the
balanced end (`none` when the scan fails, i.e. `arr_end <= arr_idx` in the
code), and cut the span text. -/
def spanInWindow (window : List Char) : Option (List Char) :=
  match findArrIdx window with
  | none => none
  | some arrIdx =>
    match scanSpan window arrIdx with
    | none => none
    | some arrEnd => some ((window.drop arrIdx).take (arrEnd - arrIdx))

/-- Candidate span for one occurrence: the window cut plus the in-window
search. -/
def spanOf (buf : List Char) (m : Nat × Nat) : Option (List Char) :=
  spanInWindow (windowOf buf m)

/-- Full processing of one occurrence of an anchor: locate and decode a
candidate, then normalize.  `ok none` means this candidate failed and the
loop moves on; `ok (some daily)` means the loop records the series and
breaks; `error` models an uncaught exception. -/
def processMatch (buf : List Char) (m : Nat × Nat) :
    Except PyErr (Option (List (List Char × ℚ))) :=
  match spanOf buf m with
  | none => .ok none
  | some span =>
    match decodeSpan span with
    | none => .ok none
    | some elems =>
      match deduplicate_daily elems with
      | .error er => .error er
      | .ok daily => if daily.isEmpty then .ok none else .ok (some daily)

/-- First decisive outcome in a list of per-occurrence results: an
exception or a recorded series stops the loop, a failed candidate moves on. -/
def firstHit :
    List (Except PyErr (Option (List (List Char × ℚ)))) →
      Except PyErr (Option (List (List Char × ℚ)))
  | [] => .ok none
  | r :: rest =>
    match r with
    | .error er => .error er
    | .ok (some d) => .ok (some d)
    | .ok none => firstHit rest

/-- The `for m in matches` loop of `parse_rsc_history` for one anchor:
occurrences are processed in order until one records a series or raises. -/
def tryMatches (buf : List Char) (ms : List (Nat × Nat)) :
    Except PyErr (Option (List (List Char × ℚ))) :=
  firstHit (ms.map (processMatch buf))

/-- Fuel-driven worker for `findOccurrences` (non-overlapping matches, next
search resumes after a match, exactly `re.finditer` on a literal pattern). -/
def findOccF : Nat → List Char → List Char → Nat → List (Nat × Nat)
  | 0, _, _, _ => []
  | fuel + 1, l, pat, i =>
    if pat ≠ [] ∧ pat.isPrefixOf l then
      (i, i + pat.length) :: findOccF fuel (l.drop pat.length) pat (i + pat.length)
    else
      match l with
      | [] => []
      | _ :: rest => findOccF fuel rest pat (i + 1)

/-- All `(start, stop)` occurrences of a literal pattern in the buffer. -/
def findOccurrences (buf pat : List Char) : List (Nat × Nat) :=
  findOccF buf.length buf pat 0

/-- The pattern `'"' + re.escape(symbol) + '"'`. -/
def quoted (sym : List Char) : List Char := '"' :: sym ++ ['"']

/-- The `for symbol in KNOWN_SYMBOLS` loop of `parse_rsc_history`. -/
def symbolLoop (buf : List Char) :
    List (List Char) → Except PyErr (List (List Char × List (List Char × ℚ)))
  | [] => .ok []
  | sym :: rest =>
    match tryMatches buf (findOccurrences buf (quoted sym)) with
    | .error er => .error er
    | .ok none => symbolLoop buf rest
    | .ok (some daily) =>
      match symbolLoop buf rest with
      | .error er => .error er
      | .ok h => .ok ((sym, daily) :: h)

/-! ### RSC chunk extraction (src/scraper/scrape.py lines 211-215)

`re.findall(r'self\.__next_f\.push\(\[1,"((?:[^"\\]|\\.)*)"\]\)', html)`:
the capture group tokenizes deterministically (escape pair, or any
character other than quote and backslash), so the regex reduces to: maximal
unit run after the literal opener, then the literal `"])` closer. -/

/-- The literal opener `self.__next_f.push([1,"`. -/
def pushMarker : List Char := "self.__next_f.push([1,\"".toList

/-- The literal closer `"])`. -/
def closeMarker : List Char := "\"])".toList

/-- Maximal capture-group unit run and the remainder. -/
def chunkUnits : List Char → List Char × List Char
  | [] => ([], [])
  | '\\' :: c :: rest =>
    let p := chunkUnits rest
    ('\\' :: c :: p.1, p.2)
  | c :: rest =>
    if c = '"' ∨ c = '\\' then ([], c :: rest)
    else
      let p := chunkUnits rest
      (c :: p.1, p.2)

/-- Fuel-driven scan for all chunk matches. -/
def extractChunksF : Nat → List Char → List (List Char)
  | 0, _ => []
  | fuel + 1, l =>
    if pushMarker.isPrefixOf l then
      let after := l.drop pushMarker.length
      let p := chunkUnits after
      if closeMarker.isPrefixOf p.2 then p.1 :: extractChunksF fuel (p.2.drop closeMarker.length)
      else
        match l with
        | [] => []
        | _ :: rest => extractChunksF fuel rest
    else
      match l with
      | [] => []
      | _ :: rest => extractChunksF fuel rest

/-- All captured RSC chunk bodies, in document order. -/
def extractChunks (html : List Char) : List (List Char) := extractChunksF html.length html

/-- The `KNOWN_SYMBOLS` anchor set (src/scraper/scrape.py lines 20-24). -/
def KNOWN_SYMBOLS : List (List Char) :=
  ["BNBL", "RICB", "GICB", "BIL", "TBL", "BFAL", "BCCL",
   "BTCL", "BPCL", "KCL", "BBPL", "BSRM", "DPNBL", "BODB",
   "STCBL", "DWAL", "BFSL", "JMCL"].map String.toList

/-- `parse_rsc_history` from src/scraper/scrape.py lines 203-288: extract
chunks (empty result when none), reassemble, then run the per-symbol loop. -/
def parse_rsc_history (html : List Char) :
    Except PyErr (List (List Char × List (List Char × ℚ))) :=
  let raw_chunks := extractChunks html
  if raw_chunks.isEmpty then .ok []
  else symbolLoop (reassemble raw_chunks) KNOWN_SYMBOLS

/-! ### Strategy orchestrator (src/scraper/scrape.py lines 128-200) -/

/-- Outcome of the in-page fiber-tree evaluation (external collaborator):
either the evaluation throws, or it returns a symbol-to-raw-array mapping in
insertion order. -/
inductive FiberOutcome where
  | throws
  | returns (d : List (List Char × List JVal))

/-- The `for sym, arr in fiber_result.items()` loop: accepted symbols are
normalized and stored; an exception mid-loop is caught by the surrounding
`except`, keeping the entries stored so far. -/
def primaryLoop :
    List (List Char × List JVal) → List (List Char × List (List Char × ℚ)) →
      List (List Char × List (List Char × ℚ))
  | [], acc => acc
  | (sym, arr) :: rest, acc =>
    if sym ∈ KNOWN_SYMBOLS ∨ sym.length ≤ 6 then
      match deduplicate_daily arr with
      | .ok daily => primaryLoop rest (setKey acc sym daily)
      | .error _ => acc
    else primaryLoop rest acc

/-- The histories produced by the primary (live-render fiber) strategy. -/
def primaryResult : FiberOutcome → List (List Char × List (List Char × ℚ))
  | .throws => []
  | .returns d => primaryLoop d []

/-- `scrape_history` from src/scraper/scrape.py lines 128-200, with the
external navigation and evaluation outcomes as parameters: failed
navigation returns empty; a non-empty primary result is returned as is;
otherwise the RSC fallback runs on the page HTML, with any uncaught
exception caught by the orchestrator (empty result). -/
def scrape_history (navOk : Bool) (fiber : FiberOutcome) (html : List Char) :
    List (List Char × List (List Char × ℚ)) :=
  if navOk = false then []
  else
    let histories := primaryResult fiber
    if histories.isEmpty = false then histories
    else
      match parse_rsc_history html with
      | .ok h => h
      | .error _ => []

/-! ### Pagination loop of `scrape_stocks` (src/scraper/scrape.py lines 68-98)

The loop body is driven by the external page: each iteration observes either
no next control, a disabled next control, an enabled one whose post-click
wait times out, or an enabled one whose post-click wait succeeds; only the
last case continues the loop. -/

/-- What one iteration of the pagination loop observes. -/
inductive NextOutcome where
  | absent
  | disabled
  | enabledTimeout
  | enabledOk

/-- Whether an observation stops the loop. -/
def isStop : NextOutcome → Bool
  | .enabledOk => false
  | _ => true

/-- The `while True` pagination loop, fuel-bounded: `some n` when the loop
exits after iteration `n - 1` within the given fuel, `none` when it is still
running when the fuel runs out. -/
def stocksLoop (env : Nat → NextOutcome) : Nat → Nat → Option Nat
  | 0, _ => none
  | fuel + 1, i =>
    match env i with
    | .enabledOk => stocksLoop env fuel (i + 1)
    | _ => some (i + 1)

/-! ### Concrete fixtures used in the theorems below -/

/-- Day `i + 1` of January 2024, zero-padded. -/
def gdate (i : Nat) : String :=
  "2024-01-" ++ (if i + 1 < 10 then "0" else "") ++ Nat.repr (i + 1)

/-- One well-formed record `{"date":"2024-01-..","close":1}`. -/
def goodElem (i : Nat) : String :=
  "\x7b\"date\":\"" ++ gdate i ++ "\",\"close\":1\x7d"

/-- A well-formed 21-record array that decodes and normalizes to 21 days. -/
def goodArr : String :=
  "[" ++ String.intercalate "," ((List.range 21).map goodElem) ++ "]"

/-- The series `deduplicate_daily` produces from `goodArr`. -/
def goodSeries : List (List Char × ℚ) :=
  (List.range 21).map (fun i => ((gdate i).toList, (1 : ℚ)))

/-- A 21-element array that passes the decoder (first element has both
fields) but normalizes to the empty series: every date and close is falsy. -/
def badArr : String :=
  "[\x7b\"date\":\"\",\"close\":\"\"\x7d" ++ String.join (List.replicate 20 ",\x7b\x7d") ++ "]"

/-- Buffer with one `"BNBL"` occurrence followed by the good array. -/
def bufGood : List Char := "\"BNBL\"".toList ++ goodArr.toList

/-- Buffer with one `"BNBL"` occurrence followed by the decodable-but-empty
array. -/
def bufBad : List Char := "\"BNBL\"".toList ++ badArr.toList

/-- Whether an occurrence of an anchor yields a span that decodes
successfully (the stopping condition named by claim C4). -/
def decodesAt (buf : List Char) (m : Nat × Nat) : Bool :=
  match spanOf buf m with
  | none => false
  | some span => (decodeSpan span).isSome

/-- A well-formed 20-element array whose first element has both fields:
`json.loads` succeeds, yet the decoder rejects it (`len(arr) > 20` fails). -/
def span20 : List Char :=
  ("[\x7b\"date\":0,\"close\":0\x7d" ++ String.join (List.replicate 19 ",0") ++ "]").toList

/-- A well-formed 21-element array whose first element has a date field but
no close field: rejected by the code, accepted by claim C3 as stated. -/
def span21noClose : List Char :=
  ("[\x7b\"date\":0\x7d" ++ String.join (List.replicate 20 ",0") ++ "]").toList

/-- The elements `json.loads` produces from `badArr`. -/
def badElems : List JVal :=
  .jobj [(dateKey, .jstr []), (closeKey, .jstr [])] :: List.replicate 20 (.jobj [])

/-- Example balanced array content: a plain character, a string literal
containing an escaped quote and both bracket characters, and a plain
character — the characters of the text between the brackets of
`[{"a\"]["}]`. -/
def innerEx : List Char := ['\x7b', '"', 'a', '\\', '"', ']', '[', '"', '\x7d']

/-- A buffer that ends in the middle of a candidate array: one `"BNBL"`
occurrence followed only by the array marker. -/
def bufTrunc : List Char := "\"BNBL\"[\x7b\"date\":".toList

/-- The normalizer example input from claim C2. -/
def c2exampleInput : List JVal :=
  [.jobj [(dateKey, .jstr "2024-01-05T00:00:00".toList), (closeKey, .jstr "10.5".toList)],
   .jobj [(dateKey, .jstr "2024-01-05".toList), (closeKey, .jstr "11.0".toList)],
   .jobj [(dateKey, .jstr "2024-01-04".toList), (closeKey, .jint 9)]]

/-- Two same-day records where the later one has the falsy close `0`. -/
def c2dup : List JVal :=
  [.jobj [(dateKey, .jstr "2024-01-04".toList), (closeKey, .jint 9)],
   .jobj [(dateKey, .jstr "2024-01-04".toList), (closeKey, .jint 0)]]

/-- A record with the falsy numeric close `0`. -/
def fsZero : List (List Char × JVal) :=
  [(dateKey, .jstr "2024-01-04".toList), (closeKey, .jint 0)]

/-- A fiber evaluation that returns one known symbol with one good record. -/
def fiberGood : FiberOutcome :=
  .returns [("BNBL".toList, [.jobj [(dateKey, .jstr "2024-01-04".toList), (closeKey, .jint 9)]])]

/-- A page that always offers an enabled next control and settles in time. -/
def envAlwaysNext : Nat → NextOutcome := fun _ => .enabledOk

/-- A page whose next control is disabled on the third iteration. -/
def envStopAt2 : Nat → NextOutcome := fun n => if n = 2 then .disabled else .enabledOk

/-! ### Scanner lemmas -/

theorem scanLoop_nil (d : Int) (i e : Bool) (p : Nat) : scanLoop [] d i e p = none := rfl

theorem scanLoop_cons (c : Char) (rest : List Char) (d : Int) (i e : Bool) (p : Nat) :
    scanLoop (c :: rest) d i e p =
      if e then scanLoop rest d i false (p + 1)
      else if c = '\\' ∧ i = true then scanLoop rest d i true (p + 1)
      else if (if c = '"' then !i else i) = false then
        if c = '[' then scanLoop rest (d + 1) (if c = '"' then !i else i) false (p + 1)
        else if c = ']' then
          if d - 1 = 0 then some (p + 1)
          else scanLoop rest (d - 1) (if c = '"' then !i else i) false (p + 1)
        else scanLoop rest d (if c = '"' then !i else i) false (p + 1)
      else scanLoop rest d (if c = '"' then !i else i) false (p + 1) := rfl

theorem scanLoop_esc (c : Char) (rest : List Char) (d : Int) (i : Bool) (p : Nat) :
    scanLoop (c :: rest) d i true p = scanLoop rest d i false (p + 1) := by
  rw [scanLoop_cons]; simp

theorem scanLoop_backslash (rest : List Char) (d : Int) (p : Nat) :
    scanLoop ('\\' :: rest) d true false p = scanLoop rest d true true (p + 1) := by
  rw [scanLoop_cons]; simp

theorem scanLoop_strChar (c : Char) (hc1 : c ≠ '"') (hc2 : c ≠ '\\') (rest : List Char)
    (d : Int) (p : Nat) :
    scanLoop (c :: rest) d true false p = scanLoop rest d true false (p + 1) := by
  rw [scanLoop_cons]; simp [hc1, hc2]

theorem scanLoop_quote_open (rest : List Char) (d : Int) (p : Nat) :
    scanLoop ('"' :: rest) d false false p = scanLoop rest d true false (p + 1) := by
  rw [scanLoop_cons]; simp

theorem scanLoop_quote_close (rest : List Char) (d : Int) (p : Nat) :
    scanLoop ('"' :: rest) d true false p = scanLoop rest d false false (p + 1) := by
  rw [scanLoop_cons]; simp

theorem scanLoop_plain (c : Char) (h1 : c ≠ '[') (h2 : c ≠ ']') (h3 : c ≠ '"')
    (rest : List Char) (d : Int) (p : Nat) :
    scanLoop (c :: rest) d false false p = scanLoop rest d false false (p + 1) := by
  rw [scanLoop_cons]; simp [h1, h2, h3]

theorem scanLoop_open (rest : List Char) (d : Int) (p : Nat) :
    scanLoop ('[' :: rest) d false false p = scanLoop rest (d + 1) false false (p + 1) := by
  rw [scanLoop_cons]; simp

theorem scanLoop_close (rest : List Char) (d : Int) (p : Nat) (hd : ¬ d - 1 = 0) :
    scanLoop (']' :: rest) d false false p = scanLoop rest (d - 1) false false (p + 1) := by
  rw [scanLoop_cons]; simp [hd]

theorem scanLoop_close_zero (rest : List Char) (d : Int) (p : Nat) (hd : d - 1 = 0) :
    scanLoop (']' :: rest) d false false p = some (p + 1) := by
  rw [scanLoop_cons]; simp [hd]

/-- Scanning a well-formed string body inside a string literal just walks
over it: depth never changes while the in-string flag is set. -/
theorem scanStr {body : List Char} (h : StrBody body) :
    ∀ (rest : List Char) (d : Int) (p : Nat),
      scanLoop (body ++ rest) d true false p = scanLoop rest d true false (p + body.length) := by
  induction h with
  | nil => intro rest d p; simp
  | esc c rest2 _ ih =>
    intro rest d p
    rw [List.cons_append, List.cons_append, scanLoop_backslash, scanLoop_esc, ih]
    congr 1
    simp
    omega
  | plain c rest2 hc1 hc2 _ ih =>
    intro rest d p
    rw [List.cons_append, scanLoop_strChar c hc1 hc2, ih]
    congr 1
    simp
    omega

/-- Scanning balanced content at positive depth walks over it and leaves the
depth unchanged. -/
theorem scanContent {inner : List Char} (h : BalContent inner) :
    ∀ (rest : List Char) (d : Int), 1 ≤ d → ∀ p : Nat,
      scanLoop (inner ++ rest) d false false p =
        scanLoop rest d false false (p + inner.length) := by
  induction h with
  | nil => intro rest d _ p; simp
  | plain c rest2 h1 h2 h3 _ ih =>
    intro rest d hd p
    rw [List.cons_append, scanLoop_plain c h1 h2 h3, ih rest d hd]
    congr 1
    simp
    omega
  | strLit body rest2 hbody _ ih =>
    intro rest d hd p
    have hassoc : ('"' :: body ++ '"' :: rest2) ++ rest = '"' :: (body ++ '"' :: (rest2 ++ rest)) := by
      simp
    rw [hassoc, scanLoop_quote_open, scanStr hbody, List.cons_append, scanLoop_quote_close,
      ih rest d hd]
    congr 1
    simp
    omega
  | arr inner2 rest2 _ _ ih1 ih2 =>
    intro rest d hd p
    have hassoc : ('[' :: inner2 ++ ']' :: rest2) ++ rest = '[' :: (inner2 ++ ']' :: (rest2 ++ rest)) := by
      simp
    have hd1 : (1 : Int) ≤ d + 1 := by omega
    rw [hassoc, scanLoop_open, ih1 (']' :: (rest2 ++ rest)) (d + 1) hd1, List.cons_append,
      scanLoop_close _ _ _ (by omega), show d + 1 - 1 = d by omega, ih2 rest d hd]
    congr 1
    simp
    omega

/-- Scanning a balanced array from its opening bracket at depth zero stops
exactly one past its closing bracket. -/
theorem scanArr {inner : List Char} (h : BalContent inner) (rest : List Char) (p : Nat) :
    scanLoop ('[' :: inner ++ ']' :: rest) 0 false false p = some (p + inner.length + 2) := by
  rw [List.cons_append, scanLoop_open, scanContent h (']' :: rest) (0 + 1) (by omega),
    scanLoop_close_zero _ _ _ (by omega)]
  congr 1
  omega

/-- If a scan of `xs ++ ys` stops strictly inside `ys`, then the scan of
`xs` alone exhausts the characters and returns nothing. -/
theorem scanNone (xs : List Char) :
    ∀ (ys : List Char) (d : Int) (i e : Bool) (p r : Nat),
      scanLoop (xs ++ ys) d i e p = some r → p + xs.length < r →
      scanLoop xs d i e p = none := by
  induction xs with
  | nil => intro ys d i e p r _ _; rfl
  | cons c xs ih =>
    intro ys d i e p r hscan hlt
    rw [List.cons_append, scanLoop_cons] at hscan
    rw [scanLoop_cons]
    have hlt2 : p + 1 + xs.length < r := by simp at hlt; omega
    split_ifs at hscan ⊢ <;>
      first
        | exact ih ys _ _ _ (p + 1) r hscan hlt2
        | exact absurd (Option.some.inj hscan) (by omega)

theorem scanSpan_eq (l : List Char) (i : Nat) :
    scanSpan l i = scanLoop (l.drop i) 0 false false i := rfl

/-! ### Association-list and sorting lemmas -/

theorem getKey_setKey_self {β : Type} (m : List (List Char × β)) (k : List Char) (v : β) :
    getKey (setKey m k v) k = some v := by
  induction m with
  | nil => simp [setKey, getKey]
  | cons p rest ih =>
    obtain ⟨k2, w⟩ := p
    by_cases h : k2 = k
    · simp [setKey, h, getKey]
    · simp [setKey, h, getKey, ih]

theorem getKey_setKey_ne {β : Type} (m : List (List Char × β)) (k k2 : List Char) (v : β)
    (h : k2 ≠ k) : getKey (setKey m k v) k2 = getKey m k2 := by
  have hne : ¬ k = k2 := fun hh => h hh.symm
  induction m with
  | nil => simp [setKey, getKey, hne]
  | cons p rest ih =>
    obtain ⟨k3, w⟩ := p
    by_cases h3 : k3 = k
    · subst h3
      simp [setKey, getKey, hne]
    · simp [setKey, h3, getKey, ih]

theorem setKey_cons_eq {β : Type} (k2 : List Char) (w : β) (rest : List (List Char × β))
    (k : List Char) (v : β) (h : k2 = k) :
    setKey ((k2, w) :: rest) k v = (k, v) :: rest := by
  simp [setKey, h]

theorem setKey_cons_ne {β : Type} (k2 : List Char) (w : β) (rest : List (List Char × β))
    (k : List Char) (v : β) (h : ¬ k2 = k) :
    setKey ((k2, w) :: rest) k v = (k2, w) :: setKey rest k v := by
  simp [setKey, h]

theorem mem_keys_setKey {β : Type} (m : List (List Char × β)) (k : List Char) (v : β)
    (x : List Char) : x ∈ (setKey m k v).map Prod.fst → x ∈ m.map Prod.fst ∨ x = k := by
  induction m with
  | nil =>
    intro hx
    right
    simpa [setKey] using hx
  | cons p rest ih =>
    obtain ⟨k2, w⟩ := p
    intro hx
    by_cases h : k2 = k
    · rw [setKey_cons_eq k2 w rest k v h, List.map_cons, List.mem_cons] at hx
      rcases hx with h2 | h2
      · right; exact h2
      · left; rw [List.map_cons, List.mem_cons]; right; exact h2
    · rw [setKey_cons_ne k2 w rest k v h, List.map_cons, List.mem_cons] at hx
      rcases hx with h2 | h2
      · left; rw [List.map_cons, List.mem_cons]; left; exact h2
      · rcases ih h2 with h3 | h3
        · left; rw [List.map_cons, List.mem_cons]; right; exact h3
        · right; exact h3

theorem keysNodup_setKey {β : Type} (m : List (List Char × β)) (k : List Char) (v : β)
    (h : (m.map Prod.fst).Nodup) : ((setKey m k v).map Prod.fst).Nodup := by
  induction m with
  | nil =>
    simp only [setKey, List.map_cons, List.map_nil]
    exact List.nodup_singleton k
  | cons p rest ih =>
    obtain ⟨k2, w⟩ := p
    simp only [List.map_cons, List.nodup_cons] at h
    obtain ⟨hk2, hrest⟩ := h
    by_cases hh : k2 = k
    · rw [setKey_cons_eq k2 w rest k v hh, List.map_cons, List.nodup_cons]
      subst hh
      exact ⟨hk2, hrest⟩
    · rw [setKey_cons_ne k2 w rest k v hh, List.map_cons, List.nodup_cons]
      refine ⟨fun hx => ?_, ih hrest⟩
      rcases mem_keys_setKey rest k v k2 hx with h2 | h2
      · exact hk2 h2
      · exact hh h2

theorem insertSorted_perm {β : Type} (p : List Char × β) (l : List (List Char × β)) :
    List.Perm (insertSorted p l) (p :: l) := by
  induction l with
  | nil => exact List.Perm.refl _
  | cons q rest ih =>
    simp only [insertSorted]
    by_cases h : charLe p.1 q.1
    · simp [h]
    · simp only [h, Bool.false_eq_true, if_false]
      exact ((ih.cons q).trans (List.Perm.swap p q rest))

theorem sortPairs_perm {β : Type} (l : List (List Char × β)) :
    List.Perm (sortPairs l) l := by
  induction l with
  | nil => exact List.Perm.refl _
  | cons p rest ih =>
    exact (insertSorted_perm p (sortPairs rest)).trans (ih.cons p)

theorem perm_getKey {β : Type} {l l2 : List (List Char × β)} (h : List.Perm l l2)
    (hn : (l.map Prod.fst).Nodup) : ∀ k, getKey l k = getKey l2 k := by
  induction h with
  | nil => intro k; rfl
  | cons x h ih =>
    intro k
    simp only [List.map_cons, List.nodup_cons] at hn
    simp only [getKey]
    by_cases hk : x.1 = k
    · simp [hk]
    · simp [hk, ih hn.2 k]
  | swap x y l =>
    intro k
    simp only [List.map_cons, List.nodup_cons, List.mem_cons] at hn
    have hxy : y.1 ≠ x.1 := fun hh => hn.1 (Or.inl hh)
    simp only [getKey]
    by_cases hy : y.1 = k
    · subst hy
      rw [if_pos rfl, if_neg (fun hh => hxy hh.symm), if_pos rfl]
    · rw [if_neg hy]
      by_cases hx : x.1 = k
      · rw [if_pos hx, if_pos hx]
      · rw [if_neg hx, if_neg hx, if_neg hy]
  | trans h1 h2 ih1 ih2 =>
    intro k
    rw [ih1 hn k]
    have hn2 := ((h1.map Prod.fst).nodup_iff).mp hn
    rw [ih2 hn2 k]

theorem charLe_total (a : List Char) : ∀ b, charLe a b = true ∨ charLe b a = true := by
  induction a with
  | nil => intro b; left; rfl
  | cons c as ih =>
    intro b
    cases b with
    | nil => right; rfl
    | cons d bs =>
      simp only [charLe]
      rcases Nat.lt_trichotomy c.toNat d.toNat with h | h | h
      · left; simp [h]
      · have h1 : ¬ c.toNat < d.toNat := by omega
        have h2 : ¬ d.toNat < c.toNat := by omega
        rcases ih bs with h3 | h3
        · left; simp [h1, h2, h3]
        · right; simp [h1, h2, h3]
      · right; simp [h]

theorem charLe_trans (a : List Char) :
    ∀ b c, charLe a b = true → charLe b c = true → charLe a c = true := by
  induction a with
  | nil => intro b c _ _; rfl
  | cons x xs ih =>
    intro b c h1 h2
    cases b with
    | nil => simp [charLe] at h1
    | cons y ys =>
      cases c with
      | nil => simp [charLe] at h2
      | cons z zs =>
        simp only [charLe] at h1 h2 ⊢
        by_cases hxy : x.toNat < y.toNat
        · by_cases hyz : y.toNat < z.toNat
          · simp [show x.toNat < z.toNat by omega]
          · by_cases hzy : z.toNat < y.toNat
            · simp [hyz, hzy] at h2
            · simp [show x.toNat < z.toNat by omega]
        · by_cases hyx : y.toNat < x.toNat
          · simp [hxy, hyx] at h1
          · by_cases hyz : y.toNat < z.toNat
            · simp [show x.toNat < z.toNat by omega]
            · by_cases hzy : z.toNat < y.toNat
              · simp [hyz, hzy] at h2
              · have h1a : charLe xs ys = true := by simpa [hxy, hyx] using h1
                have h2a : charLe ys zs = true := by simpa [hyz, hzy] using h2
                have hq1 : ¬ x.toNat < z.toNat := by omega
                have hq2 : ¬ z.toNat < x.toNat := by omega
                simp [hq1, hq2, ih ys zs h1a h2a]

theorem mem_insertSorted {β : Type} (p x : List Char × β) (l : List (List Char × β)) :
    x ∈ insertSorted p l → x = p ∨ x ∈ l := by
  induction l with
  | nil =>
    intro hx
    left
    simpa [insertSorted] using hx
  | cons q rest ih =>
    intro hx
    simp only [insertSorted] at hx
    by_cases h : charLe p.1 q.1 = true
    · rw [if_pos h, List.mem_cons] at hx
      rcases hx with h2 | h2
      · left; exact h2
      · right; exact h2
    · rw [if_neg h, List.mem_cons] at hx
      rcases hx with h2 | h2
      · right; rw [List.mem_cons]; left; exact h2
      · rcases ih h2 with h3 | h3
        · left; exact h3
        · right; rw [List.mem_cons]; right; exact h3

theorem insertSorted_pairwise {β : Type} (p : List Char × β) (l : List (List Char × β)) :
    l.Pairwise (fun a b => charLe a.1 b.1 = true) →
    (insertSorted p l).Pairwise (fun a b => charLe a.1 b.1 = true) := by
  induction l with
  | nil =>
    intro _
    simp [insertSorted]
  | cons q rest ih =>
    intro h
    rw [List.pairwise_cons] at h
    obtain ⟨hq, hrest⟩ := h
    simp only [insertSorted]
    by_cases hle : charLe p.1 q.1 = true
    · rw [if_pos hle]
      refine List.Pairwise.cons ?_ (List.Pairwise.cons hq hrest)
      intro x hx
      rcases List.mem_cons.mp hx with h2 | h2
      · rw [h2]; exact hle
      · exact charLe_trans p.1 q.1 x.1 hle (hq x h2)
    · rw [if_neg hle]
      refine List.Pairwise.cons ?_ (ih hrest)
      intro x hx
      rcases mem_insertSorted p x rest hx with h2 | h2
      · rw [h2]
        rcases charLe_total p.1 q.1 with h3 | h3
        · exact absurd h3 hle
        · exact h3
      · exact hq x h2

theorem sortPairs_pairwise {β : Type} (l : List (List Char × β)) :
    (sortPairs l).Pairwise (fun a b => charLe a.1 b.1 = true) := by
  induction l with
  | nil => simp [sortPairs]
  | cons p rest ih => exact insertSorted_pairwise p (sortPairs rest) ih

/-! ### Normalizer lemmas -/

theorem dedupStep_eq (daily : List (List Char × ℚ)) (e : JVal) :
    dedupStep daily e =
      match e with
      | .jobj _ =>
        .ok (match amendedContrib e with
             | some p => setKey daily p.1 p.2
             | none => daily)
      | _ => .error .attributeError := by
  cases e with
  | jobj fs =>
    simp only [dedupStep, pyGet, amendedContrib, closeCoerce]
    by_cases hd : truthy ((getKey fs dateKey).getD .jnull)
    · by_cases hc : truthy ((getKey fs closeKey).getD .jnull)
      · simp only [hd, hc, Bool.true_eq_false, if_false, and_self, if_true]
        cases hv : pyFloatVal ((getKey fs closeKey).getD .jnull) <;> simp [hv]
      · simp [hd, hc]
    · simp [hd]
  | jnull => rfl
  | jbool b => rfl
  | jint n => rfl
  | jfloat q => rfl
  | jstr s => rfl
  | jarr l => rfl

theorem dedupLoop_append (l1 l2 : List JVal) :
    ∀ daily, dedupLoop (l1 ++ l2) daily =
      match dedupLoop l1 daily with
      | .error er => .error er
      | .ok d2 => dedupLoop l2 d2 := by
  induction l1 with
  | nil => intro daily; simp [dedupLoop]
  | cons e rest ih =>
    intro daily
    simp only [List.cons_append, dedupLoop]
    cases dedupStep daily e <;> simp [ih]

theorem dedupLoop_getKey (entries : List JVal) :
    ∀ (daily out : List (List Char × ℚ)), dedupLoop entries daily = .ok out →
      ∀ k, getKey out k =
        match lastWins (entries.filterMap amendedContrib) k with
        | some v => some v
        | none => getKey daily k := by
  induction entries with
  | nil =>
    intro daily out h k
    simp only [dedupLoop, Except.ok.injEq] at h
    subst h
    simp [lastWins]
  | cons e rest ih =>
    intro daily out h k
    rw [dedupLoop, dedupStep_eq] at h
    cases e with
    | jobj fs =>
      simp only at h
      cases hc : amendedContrib (.jobj fs) with
      | none =>
        rw [hc] at h
        simp only [List.filterMap_cons, hc]
        exact ih daily out h k
      | some p =>
        rw [hc] at h
        have ih2 := ih _ out h k
        simp only [List.filterMap_cons, hc, lastWins]
        cases hl : lastWins (rest.filterMap amendedContrib) k with
        | some v => rw [hl] at ih2; exact ih2
        | none =>
          rw [hl] at ih2
          by_cases hk : p.1 = k
          · subst hk
            simp [ih2, getKey_setKey_self]
          · simp only [hk, Bool.false_eq_true, if_false]
            rw [ih2, getKey_setKey_ne daily p.1 k p.2 (fun hh => hk hh.symm)]
    | jnull => exact absurd h (by simp)
    | jbool b => exact absurd h (by simp)
    | jint n => exact absurd h (by simp)
    | jfloat q => exact absurd h (by simp)
    | jstr s => exact absurd h (by simp)
    | jarr l => exact absurd h (by simp)

theorem dedupLoop_keysNodup (entries : List JVal) :
    ∀ daily out, dedupLoop entries daily = .ok out →
      (daily.map Prod.fst).Nodup → (out.map Prod.fst).Nodup := by
  induction entries with
  | nil =>
    intro daily out h hn
    simp only [dedupLoop, Except.ok.injEq] at h
    subst h
    exact hn
  | cons e rest ih =>
    intro daily out h hn
    rw [dedupLoop, dedupStep_eq] at h
    cases e with
    | jobj fs =>
      simp only at h
      cases hc : amendedContrib (.jobj fs) with
      | none => rw [hc] at h; exact ih daily out h hn
      | some p => rw [hc] at h; exact ih _ out h (keysNodup_setKey daily p.1 p.2 hn)
    | jnull => exact absurd h (by simp)
    | jbool b => exact absurd h (by simp)
    | jint n => exact absurd h (by simp)
    | jfloat q => exact absurd h (by simp)
    | jstr s => exact absurd h (by simp)
    | jarr l => exact absurd h (by simp)

theorem amendedContrib_falsy (fs : List (List Char × JVal))
    (h : truthy ((getKey fs dateKey).getD .jnull) = false ∨
         truthy ((getKey fs closeKey).getD .jnull) = false) :
    amendedContrib (.jobj fs) = none := by
  rcases h with h | h <;> simp [amendedContrib, h]

theorem strBodyEx : StrBody ['a', '\\', '"', ']', '['] := by
  refine StrBody.plain 'a' _ (by decide) (by decide) ?_
  refine StrBody.esc '"' _ ?_
  refine StrBody.plain ']' _ (by decide) (by decide) ?_
  refine StrBody.plain '[' _ (by decide) (by decide) ?_
  exact StrBody.nil

theorem innerExBal : BalContent innerEx := by
  have hsplit : innerEx = '\x7b' :: ('"' :: ['a', '\\', '"', ']', '['] ++ '"' :: ['\x7d']) := rfl
  rw [hsplit]
  refine BalContent.plain _ _ (by decide) (by decide) (by decide) ?_
  refine BalContent.strLit _ _ strBodyEx ?_
  exact BalContent.plain _ _ (by decide) (by decide) (by decide) BalContent.nil

/-! ### Unfolding equations for the locator pipeline

These restate the definitions as equations so that proofs can rewrite with
hypotheses instead of forcing whnf evaluation of symbolic windows. -/

theorem spanInWindow_eq (w : List Char) :
    spanInWindow w =
      match findArrIdx w with
      | none => none
      | some arrIdx =>
        match scanSpan w arrIdx with
        | none => none
        | some arrEnd => some ((w.drop arrIdx).take (arrEnd - arrIdx)) := rfl

theorem spanOf_eq (buf : List Char) (m : Nat × Nat) :
    spanOf buf m = spanInWindow (windowOf buf m) := rfl

theorem symbolLoop_cons (buf : List Char) (sym : List Char) (rest : List (List Char)) :
    symbolLoop buf (sym :: rest) =
      match tryMatches buf (findOccurrences buf (quoted sym)) with
      | .error er => .error er
      | .ok none => symbolLoop buf rest
      | .ok (some daily) =>
        match symbolLoop buf rest with
        | .error er => .error er
        | .ok h => .ok ((sym, daily) :: h) := rfl

theorem spanInWindow_none (w : List Char) (arrIdx : Nat)
    (h1 : findArrIdx w = some arrIdx) (h2 : scanSpan w arrIdx = none) :
    spanInWindow w = none := by
  rw [spanInWindow_eq, h1]
  show (match scanSpan w arrIdx with
        | none => none
        | some arrEnd => some ((w.drop arrIdx).take (arrEnd - arrIdx))) = none
  rw [h2]

theorem processMatch_of_spanOf_none (buf : List Char) (m : Nat × Nat)
    (h : spanOf buf m = none) : processMatch buf m = .ok none := by
  unfold processMatch
  rw [h]

theorem processMatch_of_decode (buf : List Char) (m : Nat × Nat) (span : List Char)
    (elems : List JVal) (h1 : spanOf buf m = some span) (h2 : decodeSpan span = some elems) :
    processMatch buf m =
      match deduplicate_daily elems with
      | .error er => .error er
      | .ok daily => if daily.isEmpty then .ok none else .ok (some daily) := by
  unfold processMatch
  simp only [h1, h2]

theorem firstHit_cons (r : Except PyErr (Option (List (List Char × ℚ))))
    (rs : List (Except PyErr (Option (List (List Char × ℚ))))) :
    firstHit (r :: rs) =
      match r with
      | .error er => .error er
      | .ok (some d) => .ok (some d)
      | .ok none => firstHit rs := by
  cases r with
  | error er => rfl
  | ok o =>
    cases o with
    | none => rfl
    | some d => rfl

theorem tryMatches_cons_none (buf : List Char) (m : Nat × Nat) (rest : List (Nat × Nat))
    (h : processMatch buf m = .ok none) :
    tryMatches buf (m :: rest) = tryMatches buf rest := by
  unfold tryMatches
  rw [List.map_cons, firstHit_cons, h]

theorem tryMatches_cons_some (buf : List Char) (m : Nat × Nat) (rest : List (Nat × Nat))
    (d : List (List Char × ℚ)) (h : processMatch buf m = .ok (some d)) :
    tryMatches buf (m :: rest) = .ok (some d) := by
  unfold tryMatches
  rw [List.map_cons, firstHit_cons, h]

/-! ### Claim C1 -/

/-- C1: for every buffer containing, at the candidate start offset, a
balanced bracketed array — whose quoted strings may contain escaped quotes
and bracket characters, which the scanner ignores for depth — the
balanced-span scanner of `parse_rsc_history` returns the offset immediately
past the matching closing bracket, and hence never an offset inside a
string literal. -/
theorem C1_scanner_balanced (pre inner rest : List Char) (h : BalContent inner) :
    scanSpan (pre ++ ('[' :: inner ++ ']' :: rest)) pre.length =
      some (pre.length + inner.length + 2) := by
  rw [scanSpan_eq, List.drop_left pre _]
  exact scanArr h rest pre.length

theorem C1_scanner_balanced_witness :
    BalContent innerEx ∧
      scanSpan ("xy".toList ++ ('[' :: innerEx ++ ']' :: "tail".toList)) 2 = some 13 := by
  refine ⟨innerExBal, ?_⟩
  have h := C1_scanner_balanced "xy".toList innerEx "tail".toList innerExBal
  simpa using h

/-! ### Claim C8 -/

/-- C8: when the buffer ends before the bracket depth returns to zero (a
truncated balanced array), the scanner yields no span for that start
offset; and an occurrence whose window finds a candidate start but whose
scan fails is merely skipped by the occurrence loop — the remaining
candidates are still tried, the anchor and the run are not aborted. -/
theorem C8_truncated_scan :
    (∀ (pre inner : List Char) (n : Nat), BalContent inner → n ≤ inner.length →
        scanSpan (pre ++ ('[' :: inner.take n)) pre.length = none) ∧
    (∀ (buf : List Char) (m : Nat × Nat) (rest : List (Nat × Nat)) (arrIdx : Nat),
        findArrIdx (windowOf buf m) = some arrIdx →
        scanSpan (windowOf buf m) arrIdx = none →
        tryMatches buf (m :: rest) = tryMatches buf rest) := by
  constructor
  · intro pre inner n h hn
    have hfull := scanArr h [] pre.length
    have hsplit : ('[' :: inner.take n) ++ (inner.drop n ++ [']']) = '[' :: inner ++ [']'] := by
      rw [← List.append_assoc, List.cons_append, List.take_append_drop]
    rw [← hsplit] at hfull
    have hlen : pre.length + ('[' :: inner.take n).length < pre.length + inner.length + 2 := by
      simp only [List.length_cons, List.length_take]
      omega
    have hnone := scanNone ('[' :: inner.take n) (inner.drop n ++ [']']) 0 false false
      pre.length (pre.length + inner.length + 2) hfull hlen
    rw [scanSpan_eq, List.drop_left pre _]
    exact hnone
  · intro buf m rest arrIdx h1 h2
    have hspan : spanOf buf m = none := by
      rw [spanOf_eq]
      exact spanInWindow_none (windowOf buf m) arrIdx h1 h2
    exact tryMatches_cons_none buf m rest (processMatch_of_spanOf_none buf m hspan)

theorem C8_truncated_scan_witness :
    scanSpan ("xy".toList ++ ('[' :: innerEx.take 4)) 2 = none ∧
    findArrIdx (windowOf bufTrunc (0, 6)) = some 6 ∧
    scanSpan (windowOf bufTrunc (0, 6)) 6 = none ∧
    tryMatches bufTrunc [(0, 6), (1, 7)] = tryMatches bufTrunc [(1, 7)] := by
  refine ⟨?_, by decide, by decide, ?_⟩
  · have h := C8_truncated_scan.1 "xy".toList innerEx 4 innerExBal (by decide)
    simpa using h
  · exact C8_truncated_scan.2 bufTrunc (0, 6) [(1, 7)] 6 (by decide) (by decide)

/-! ### Claim C2 -/

/-- C2 as stated is refuted: with two same-day records whose later close is
the (coercible) number `0`, the code keeps the earlier value `9.0` — the
last record does not win and is not dropped for non-coercibility; the
claim-side normalizer built from C2's words yields `0.0` instead. -/
theorem C2_counterexample :
    deduplicate_daily c2dup = .ok [("2024-01-04".toList, (9 : ℚ))] ∧
    dedupSpecClaim c2dup = [("2024-01-04".toList, (0 : ℚ))] ∧
    (9 : ℚ) ≠ 0 :=
  ⟨by decide, by decide, by norm_num⟩

/-- C2 amended: on every input on which `deduplicate_daily` returns (all
entries are dicts), the output is strictly ascending by day key with at most
one entry per key; the value recorded for a key is that of the last record
whose date and close fields are both truthy and whose close coerces to a
float (records with falsy fields are dropped even when coercible, and
non-coercible closes are dropped); and the claim's concrete example holds. -/
theorem C2_dedup_amended :
    (∀ entries out, deduplicate_daily entries = .ok out →
        out.Pairwise (fun a b => charLe a.1 b.1 = true ∧ a.1 ≠ b.1)) ∧
    (∀ entries out, deduplicate_daily entries = .ok out →
        ∀ k, getKey out k = lastWins (entries.filterMap amendedContrib) k) ∧
    deduplicate_daily c2exampleInput =
      .ok [("2024-01-04".toList, (9 : ℚ)), ("2024-01-05".toList, (11 : ℚ))] := by
  refine ⟨?_, ?_, by decide⟩
  · intro entries out h
    simp only [deduplicate_daily] at h
    cases hl : dedupLoop entries [] with
    | error er => rw [hl] at h; exact absurd h (by simp)
    | ok out0 =>
      rw [hl] at h
      simp only [Except.ok.injEq] at h
      subst h
      have hnodup0 : (out0.map Prod.fst).Nodup :=
        dedupLoop_keysNodup entries [] out0 hl (by simp)
      have hperm := sortPairs_perm out0
      have hnodup : ((sortPairs out0).map Prod.fst).Nodup :=
        ((hperm.map Prod.fst).nodup_iff).mpr hnodup0
      have hle := sortPairs_pairwise out0
      have hne : (sortPairs out0).Pairwise (fun a b => a.1 ≠ b.1) :=
        List.pairwise_map.mp hnodup
      exact hle.and hne
  · intro entries out h k
    simp only [deduplicate_daily] at h
    cases hl : dedupLoop entries [] with
    | error er => rw [hl] at h; exact absurd h (by simp)
    | ok out0 =>
      rw [hl] at h
      simp only [Except.ok.injEq] at h
      subst h
      have hnodup0 : (out0.map Prod.fst).Nodup :=
        dedupLoop_keysNodup entries [] out0 hl (by simp)
      have hperm := sortPairs_perm out0
      have hnodup : ((sortPairs out0).map Prod.fst).Nodup :=
        ((hperm.map Prod.fst).nodup_iff).mpr hnodup0
      rw [perm_getKey hperm hnodup k, dedupLoop_getKey entries [] out0 hl k]
      cases lastWins (entries.filterMap amendedContrib) k <;> simp [getKey]

theorem C2_dedup_amended_witness :
    deduplicate_daily c2dup = .ok [("2024-01-04".toList, (9 : ℚ))] ∧
    ([("2024-01-04".toList, (9 : ℚ))] : List (List Char × ℚ)).Pairwise
      (fun a b => charLe a.1 b.1 = true ∧ a.1 ≠ b.1) ∧
    getKey [("2024-01-04".toList, (9 : ℚ))] "2024-01-04".toList =
      lastWins (c2dup.filterMap amendedContrib) "2024-01-04".toList := by
  refine ⟨by decide, ?_, ?_⟩
  · exact C2_dedup_amended.1 c2dup _ (by decide)
  · exact C2_dedup_amended.2.1 c2dup _ (by decide) _

/-! ### Claim C10 -/

/-- C10: `deduplicate_daily` silently drops any record whose date or close
field is Python-falsy — numeric close `0`, empty-string close, or
empty-string date — even though `0` coerces to a float: the record's
presence changes nothing. -/
theorem C10_falsy_records_dropped :
    ∀ (pre post : List JVal) (fs : List (List Char × JVal)),
      (truthy ((getKey fs dateKey).getD .jnull) = false ∨
        truthy ((getKey fs closeKey).getD .jnull) = false) →
      deduplicate_daily (pre ++ .jobj fs :: post) = deduplicate_daily (pre ++ post) := by
  intro pre post fs h
  have hstep : ∀ daily, dedupStep daily (.jobj fs) = .ok daily := by
    intro daily
    rw [dedupStep_eq]
    simp [amendedContrib_falsy fs h]
  simp only [deduplicate_daily]
  rw [dedupLoop_append, dedupLoop_append]
  cases dedupLoop pre [] with
  | error er => rfl
  | ok d =>
    have heq : dedupLoop (JVal.jobj fs :: post) d = dedupLoop post d := by
      rw [dedupLoop, hstep d]
    dsimp only
    rw [heq]

theorem C10_falsy_records_dropped_witness :
    (truthy ((getKey fsZero dateKey).getD .jnull) = false ∨
      truthy ((getKey fsZero closeKey).getD .jnull) = false) ∧
    deduplicate_daily (c2exampleInput ++ .jobj fsZero :: []) =
      deduplicate_daily (c2exampleInput ++ []) :=
  ⟨Or.inr (by decide), C10_falsy_records_dropped c2exampleInput [] fsZero (Or.inr (by decide))⟩

/-! ### Claim C3 -/

/-- C3 as stated is refuted twice: a well-formed 20-element array (not
"fewer than 20") is rejected by the code, and a well-formed 21-element
array whose first element has a date field but no close field (so it does
not "lack both") is also rejected. -/
theorem C3_counterexample :
    ((decodeSpan span20).isNone = true ∧ rejectsClaimB span20 = false) ∧
    ((decodeSpan span21noClose).isNone = true ∧ rejectsClaimB span21noClose = false) :=
  ⟨⟨by decide, by decide⟩, ⟨by decide, by decide⟩⟩

/-- C3 amended: the decoder rejects a candidate span exactly when JSON
parsing fails, the result is not an array, the array has 20 or fewer
elements, the first element is not an object, or the first element is
missing the date field or missing the close field; an accepted span is
passed to the normalizer, whose outcome decides the occurrence. -/
theorem C3_decoder_amended :
    (∀ span, (decodeSpan span).isNone = rejectsAmendedB span) ∧
    (∀ (buf : List Char) (m : Nat × Nat) (span : List Char) (elems : List JVal),
        spanOf buf m = some span → decodeSpan span = some elems →
        processMatch buf m =
          match deduplicate_daily elems with
          | .error er => .error er
          | .ok daily => if daily.isEmpty then .ok none else .ok (some daily)) := by
  constructor
  · intro span
    unfold decodeSpan rejectsAmendedB
    cases hj : jsonParse span with
    | none => rfl
    | some v =>
      cases v with
      | jnull => rfl
      | jbool b => rfl
      | jint n => rfl
      | jfloat q => rfl
      | jstr s => rfl
      | jobj fields => rfl
      | jarr elems =>
        simp only [acceptArr]
        cases elems with
        | nil => rfl
        | cons e0 tl =>
          rcases Nat.lt_or_ge 20 (e0 :: tl).length with h20 | h20
          · simp only [decide_eq_true h20,
              decide_eq_false (show ¬ (e0 :: tl).length ≤ 20 by omega),
              Bool.true_and, Bool.false_or]
            cases e0 with
            | jobj fs =>
              cases hd : hasKey fs dateKey <;> cases hc : hasKey fs closeKey <;> simp [hd, hc]
            | jnull => simp
            | jbool b => simp
            | jint n => simp
            | jfloat q => simp
            | jstr s => simp
            | jarr l => simp
          · simp only [decide_eq_false (show ¬ 20 < (e0 :: tl).length by omega),
              decide_eq_true (show (e0 :: tl).length ≤ 20 by omega),
              Bool.false_and, Bool.true_or]
            simp
  · intro buf m span elems h1 h2
    exact processMatch_of_decode buf m span elems h1 h2

theorem C3_decoder_amended_witness :
    spanOf bufBad (0, 6) = some badArr.toList ∧
    decodeSpan badArr.toList = some badElems ∧
    processMatch bufBad (0, 6) = .ok none := by
  refine ⟨by rfl, by rfl, ?_⟩
  have h := C3_decoder_amended.2 bufBad (0, 6) badArr.toList badElems (by rfl) (by rfl)
  rw [h]
  decide

/-! ### Claim C4 -/

/-- C4 as stated is refuted: in `bufBad` the anchor `"BNBL"` has exactly one
occurrence, that occurrence yields a span that decodes successfully, yet the
anchor yields no series — contradicting the claim that a successful decode
wins for the anchor and that only an anchor whose occurrences all fail
yields no series (the code also requires a non-empty normalized series
before it stops and records). -/
theorem C4_counterexample :
    decodesAt bufBad (0, 6) = true ∧
    findOccurrences bufBad (quoted "BNBL".toList) = [(0, 6)] ∧
    symbolLoop bufBad ["BNBL".toList] = .ok [] :=
  ⟨by decide, by decide, by decide⟩

/-- C4 amended: occurrences of the quoted anchor are tried in order on
windows `[start − 5000, stop + 30000]` clamped to the buffer; the loop stops
at the first occurrence whose span decodes successfully AND normalizes to a
non-empty series, recording that series for the anchor; an occurrence that
fails (no marker, failed scan, rejected decode, or empty normalization) is
skipped; an anchor none of whose occurrences succeeds yields no series; and
an occurrence's processing depends on the buffer only through its clamped
window. -/
theorem C4_locator_amended :
    (∀ (buf : List Char) (m : Nat × Nat) (rest : List (Nat × Nat)) d,
        processMatch buf m = .ok (some d) → tryMatches buf (m :: rest) = .ok (some d)) ∧
    (∀ (buf : List Char) (m : Nat × Nat) (rest : List (Nat × Nat)),
        processMatch buf m = .ok none → tryMatches buf (m :: rest) = tryMatches buf rest) ∧
    (∀ (buf : List Char) (m : Nat × Nat) d,
        processMatch buf m = .ok (some d) → d ≠ []) ∧
    (∀ (buf sym : List Char) (rest : List (List Char)),
        tryMatches buf (findOccurrences buf (quoted sym)) = .ok none →
        symbolLoop buf (sym :: rest) = symbolLoop buf rest) ∧
    (∀ (buf sym : List Char) (rest : List (List Char)) d,
        tryMatches buf (findOccurrences buf (quoted sym)) = .ok (some d) →
        symbolLoop buf (sym :: rest) =
          match symbolLoop buf rest with
          | .error er => .error er
          | .ok h => .ok ((sym, d) :: h)) ∧
    (∀ (buf1 buf2 : List Char) (m : Nat × Nat),
        windowOf buf1 m = windowOf buf2 m → processMatch buf1 m = processMatch buf2 m) := by
  refine ⟨?_, ?_, ?_, ?_, ?_, ?_⟩
  · intro buf m rest d h
    exact tryMatches_cons_some buf m rest d h
  · intro buf m rest h
    exact tryMatches_cons_none buf m rest h
  · intro buf m d h
    unfold processMatch at h
    cases h1 : spanOf buf m with
    | none => rw [h1] at h; exact absurd h (by simp)
    | some span =>
      rw [h1] at h
      simp only at h
      cases h2 : decodeSpan span with
      | none => rw [h2] at h; exact absurd h (by simp)
      | some elems =>
        rw [h2] at h
        simp only at h
        cases h3 : deduplicate_daily elems with
        | error er => rw [h3] at h; exact absurd h (by simp)
        | ok daily =>
          rw [h3] at h
          simp only at h
          by_cases h4 : daily.isEmpty = true
          · rw [if_pos h4] at h
            exact absurd h (by simp)
          · rw [if_neg h4] at h
            simp only [Except.ok.injEq, Option.some.injEq] at h
            subst h
            intro hnil
            exact h4 (by rw [hnil]; rfl)
  · intro buf sym rest h
    rw [symbolLoop_cons, h]
  · intro buf sym rest d h
    rw [symbolLoop_cons, h]
  · intro buf1 buf2 m h
    have hspan : spanOf buf1 m = spanOf buf2 m := by
      rw [spanOf_eq, spanOf_eq, h]
    unfold processMatch
    rw [hspan]

theorem C4_locator_amended_witness :
    tryMatches bufGood [(0, 6), (0, 6)] = .ok (some goodSeries) ∧
    tryMatches bufBad [(0, 6), (1, 7)] = tryMatches bufBad [(1, 7)] ∧
    goodSeries ≠ [] ∧
    symbolLoop bufBad ["BNBL".toList, "RICB".toList] = symbolLoop bufBad ["RICB".toList] ∧
    symbolLoop bufGood ["BNBL".toList] =
      (match symbolLoop bufGood ([] : List (List Char)) with
       | .error er => .error er
       | .ok h => .ok (("BNBL".toList, goodSeries) :: h)) ∧
    processMatch bufGood (0, 6) = processMatch bufGood (0, 6) := by
  refine ⟨?_, ?_, ?_, ?_, ?_, ?_⟩
  · exact C4_locator_amended.1 bufGood (0, 6) [(0, 6)] goodSeries (by decide)
  · exact C4_locator_amended.2.1 bufBad (0, 6) [(1, 7)] (by decide)
  · exact C4_locator_amended.2.2.1 bufGood (0, 6) goodSeries (by decide)
  · exact C4_locator_amended.2.2.2.1 bufBad "BNBL".toList ["RICB".toList] (by decide)
  · exact C4_locator_amended.2.2.2.2.1 bufGood "BNBL".toList [] goodSeries (by decide)
  · exact C4_locator_amended.2.2.2.2.2 bufGood bufGood (0, 6) rfl

/-! ### Claim C5 -/

/-- C5 as stated is refuted: the chunks `ab\` and `nc` concatenate to
`ab\nc`, whose standard unescaping is `ab<LF>c`, but the reassembler decodes
per chunk — the trailing-backslash chunk fails and is kept raw — so the
output is the five-character `ab\nc`, not the four-character unescape of the
concatenation. -/
theorem C5_counterexample :
    unescape ("ab\\".toList ++ "nc".toList) = some "ab\nc".toList ∧
    reassemble ["ab\\".toList, "nc".toList] = "ab\\nc".toList ∧
    "ab\\nc".toList ≠ "ab\nc".toList :=
  ⟨by decide, by decide, by decide⟩

/-- C5 amended: the reassembler outputs the concatenation, in input order,
of each chunk's individually-unescaped content, falling back to the chunk's
raw un-decoded text exactly when unescaping that chunk fails, and a failing
chunk never aborts the run; the output therefore equals the unescape of the
concatenation only when no escape sequence straddles a chunk boundary. -/
theorem C5_reassembler_amended :
    (∀ chunks : List (List Char),
        reassemble chunks = (chunks.map (fun c => (unescape c).getD c)).flatten) ∧
    (∀ (pre : List (List Char)) (c : List Char) (post : List (List Char)),
        unescape c = none →
        reassemble (pre ++ c :: post) = reassemble pre ++ c ++ reassemble post) := by
  have key : ∀ (chunks : List (List Char)) (acc : List Char),
      chunks.foldl (fun acc c => acc ++ ((unescape c).getD c)) acc =
        acc ++ (chunks.map (fun c => (unescape c).getD c)).flatten := by
    intro chunks
    induction chunks with
    | nil => intro acc; simp
    | cons c rest ih =>
      intro acc
      simp only [List.foldl_cons, List.map_cons, List.flatten_cons, ih, List.append_assoc]
  constructor
  · intro chunks
    simpa [reassemble] using key chunks []
  · intro pre c post h
    have h1 := key (pre ++ c :: post) []
    have h2 := key pre []
    have h3 := key post []
    simp only [reassemble] at h1 h2 h3 ⊢
    rw [h1, h2, h3]
    simp [List.map_append, List.flatten_append, h, List.append_assoc]

theorem C5_reassembler_amended_witness :
    unescape "ab\\".toList = none ∧
    reassemble (["x".toList] ++ "ab\\".toList :: ["nc".toList]) =
      reassemble ["x".toList] ++ "ab\\".toList ++ reassemble ["nc".toList] :=
  ⟨by decide, C5_reassembler_amended.2 ["x".toList] "ab\\".toList ["nc".toList] (by decide)⟩

/-! ### Claim C6 -/

/-- C6: when the primary (live-render fiber) strategy yields at least one
non-empty series, `scrape_history` returns the primary result unchanged for
every page HTML — the RSC fallback is never consulted; and whenever the
result deviates from the primary result, the primary produced nothing. -/
theorem C6_orchestrator :
    (∀ (fiber : FiberOutcome) (html : List Char),
        (∃ p, p ∈ primaryResult fiber ∧ p.2 ≠ []) →
        scrape_history true fiber html = primaryResult fiber) ∧
    (∀ (fiber : FiberOutcome) (html : List Char),
        scrape_history true fiber html ≠ primaryResult fiber →
        primaryResult fiber = []) := by
  constructor
  · intro fiber html h
    obtain ⟨p, hp, _⟩ := h
    cases hpr : primaryResult fiber with
    | nil => rw [hpr] at hp; exact absurd hp (List.not_mem_nil p)
    | cons a l =>
      unfold scrape_history
      rw [hpr]
      rfl
  · intro fiber html h
    by_contra hne
    apply h
    cases hpr : primaryResult fiber with
    | nil => exact absurd hpr hne
    | cons a l =>
      unfold scrape_history
      rw [hpr]
      rfl

theorem C6_orchestrator_witness :
    (∃ p, p ∈ primaryResult fiberGood ∧ p.2 ≠ []) ∧
    scrape_history true fiberGood "no rsc chunks here".toList = primaryResult fiberGood := by
  have hex : ∃ p, p ∈ primaryResult fiberGood ∧ p.2 ≠ [] :=
    ⟨("BNBL".toList, [("2024-01-04".toList, (9 : ℚ))]), by decide, by decide⟩
  exact ⟨hex, C6_orchestrator.1 fiberGood "no rsc chunks here".toList hex⟩

/-! ### Claim C7 -/

/-- C7 as stated is refuted: on the non-numeric input `a,b` the code returns
the original trimmed string `a,b`, not the cleaned string `ab` the claim
promises. -/
theorem C7_counterexample :
    parse_number "a,b".toList = .pstr "a,b".toList ∧
    cleanOf "a,b".toList = "ab".toList ∧
    pyFloatOfStr "ab".toList = none ∧
    "a,b".toList ≠ "ab".toList :=
  ⟨by decide, by decide, by decide, by decide⟩

/-- C7 amended: `parse_number` strips commas, the `Nu.` marker and percent
signs, and returns the resulting float when the cleaned text is numeric;
when it is not numeric it returns the original trimmed string (not the
cleaned one); empty input gives `None`; `1,234.50` yields `1234.5`,
`Nu. 500` yields `500.0`, and `N/A` yields `N/A` unchanged. -/
theorem C7_parse_number_amended :
    (∀ (text : List Char) (q : ℚ), text ≠ [] → pyFloatOfStr (cleanOf text) = some q →
        parse_number text = .pnum q) ∧
    (∀ text : List Char, text ≠ [] → pyFloatOfStr (cleanOf text) = none →
        parse_number text = .pstr (trimPy text)) ∧
    parse_number [] = .pnone ∧
    parse_number "1,234.50".toList = .pnum (mkRat 2469 2) ∧
    mkRat 2469 2 = (1234.5 : ℚ) ∧
    parse_number "Nu. 500".toList = .pnum 500 ∧
    parse_number "N/A".toList = .pstr "N/A".toList := by
  refine ⟨?_, ?_, by decide, by decide, ?_, by decide, by decide⟩
  · intro text q h1 h2
    simp [parse_number, h1, h2]
  · intro text h1 h2
    simp [parse_number, h1, h2]
  · rw [Rat.mkRat_eq_div]
    norm_num

theorem C7_parse_number_amended_witness :
    ("7".toList ≠ ([] : List Char)) ∧ pyFloatOfStr (cleanOf "7".toList) = some 7 ∧
    parse_number "7".toList = .pnum 7 :=
  ⟨by decide, by decide, C7_parse_number_amended.1 "7".toList 7 (by decide) (by decide)⟩

/-! ### Claim C9 -/

theorem stocksLoop_always (fuel : Nat) : ∀ i, stocksLoop envAlwaysNext fuel i = none := by
  induction fuel with
  | zero => intro i; rfl
  | succ f ih =>
    intro i
    simp only [stocksLoop, envAlwaysNext]
    exact ih (i + 1)

/-- C9 as stated is refuted: the pagination loop has no iteration bound of
its own, so on a page that always offers an enabled next control with
successful waits the `while True` loop never exits — termination for every
run is false. -/
theorem C9_counterexample :
    ¬ ∀ env : Nat → NextOutcome, ∃ fuel, (stocksLoop env fuel 0).isSome = true := by
  intro h
  obtain ⟨fuel, hf⟩ := h envAlwaysNext
  rw [stocksLoop_always fuel 0] at hf
  exact absurd hf (by simp)

/-- C9 amended: the loop terminates on every run in which some iteration
observes a missing next control, a disabled one, or a post-click wait
timeout — each such observation stops the loop (the timeout non-fatally,
with the rows collected so far); runs where the next control is always
present, enabled, and settling never terminate on their own. -/
theorem C9_pagination_amended :
    ∀ (env : Nat → NextOutcome) (n : Nat), isStop (env n) = true →
      ∃ fuel, (stocksLoop env fuel 0).isSome = true := by
  have key : ∀ (k : Nat) (env : Nat → NextOutcome) (i : Nat), isStop (env (i + k)) = true →
      (stocksLoop env (k + 1) i).isSome = true := by
    intro k
    induction k with
    | zero =>
      intro env i h
      rw [Nat.add_zero] at h
      cases he : env i with
      | enabledOk => rw [he] at h; exact absurd h (by simp [isStop])
      | absent => simp [stocksLoop, he]
      | disabled => simp [stocksLoop, he]
      | enabledTimeout => simp [stocksLoop, he]
    | succ k ih =>
      intro env i h
      cases he : env i with
      | enabledOk =>
        have h2 : isStop (env ((i + 1) + k)) = true := by
          rw [show (i + 1) + k = i + (k + 1) by omega]
          exact h
        simpa [stocksLoop, he] using ih env (i + 1) h2
      | absent => simp [stocksLoop, he]
      | disabled => simp [stocksLoop, he]
      | enabledTimeout => simp [stocksLoop, he]
  intro env n h
  exact ⟨n + 1, key n env 0 (by simpa using h)⟩

theorem C9_pagination_amended_witness :
    isStop (envStopAt2 2) = true ∧ ∃ fuel, (stocksLoop envStopAt2 fuel 0).isSome = true :=
  ⟨by decide, C9_pagination_amended envStopAt2 2 (by decide)⟩

end RSEBL

